import Mathlib

/-!
Verification of the dynamic capacity-control and eviction-maintenance
subsystem of the moka cache fork.

The repository ships the error type (src/common/error.rs) and two example
programs exercising the public surface (set_max_capacity_block,
set_max_capacity_async, run_pending_tasks, policy().max_capacity(),
eviction_listener).  The controller and maintenance-cycle implementation
itself is not among the provided sources, so those operations are modelled
from the specification (spec.md sections 3-7) and the claims are settled
against that model.  CapacityError is embedded directly from
src/common/error.rs.
-/

namespace Moka

/-- Embedded from src/common/error.rs: the error type for the capacity
modification operations, with its two variants CacheDropped and
ChannelError. -/
inductive CapacityError where
  | CacheDropped
  | ChannelError
deriving DecidableEq

/-- Modelled from the spec: the classification tag on an eviction
notification.  This subsystem only ever produces SizeConstraint (spec 4.3
step 3); Explicit stands in for the out-of-scope removal causes so that
"cause = SizeConstraint" is a contentful statement. -/
inductive RemovalCause where
  | SizeConstraint
  | Explicit
deriving DecidableEq

/-- Modelled from the spec (section 3): a resident entry, `\x7b key, value,
weight \x7d`; keys and values are abstracted to naturals. -/
structure Entry where
  key : Nat
  value : Nat
  weight : Nat
deriving DecidableEq

/-- Sum of the weights of a list of entries. -/
def weightOf (es : List Entry) : Nat :=
  (es.map Entry.weight).sum

/-- A listener callback: given key, value and cause it either completes
normally (false) or faults (true).  Modelled from the spec (4.4, 7): the
fault outcome is the only observable we need. -/
def Listener : Type := Nat → Nat → RemovalCause → Bool

/-- The listener that never faults. -/
def noFaultL : Listener := fun _ _ _ => false

/-- The listener that always faults. -/
def allFaultL : Listener := fun _ _ _ => true

/-- One recorded listener invocation: the (key, value, cause) the callback
was given, and whether the callback faulted. -/
structure Invocation where
  key : Nat
  value : Nat
  cause : RemovalCause
  faulted : Bool
deriving DecidableEq

/-- The part of an invocation visible to the maintenance routine's caller
logic: key, value and cause, without the fault outcome. -/
def Invocation.observed (i : Invocation) : Nat × Nat × RemovalCause :=
  (i.key, i.value, i.cause)

/-- Result of one eviction sweep: the remaining entries, the listener
invocations in eviction order, the tracked weighted size afterwards, and
whether the termination guard raised an internal fault. -/
structure SweepOut where
  remaining : List Entry
  notified : List Invocation
  wsAfter : Nat
  internalFault : Bool
deriving DecidableEq

/-- Modelled from the spec (4.3 step 3 and the termination guard):
the eviction sweep.  While the tracked weighted size exceeds the target and
the eviction-order iterator (the list, most-evictable first) offers a
victim, remove the victim, decrement the tracked weighted size by its
weight, and invoke the listener with (key, value, SizeConstraint); a fault
inside the callback is recorded but the sweep proceeds.  If the iterator is
exhausted while the tracked size still exceeds the target, the sweep stops
and surfaces an internal fault. -/
def evictionSweep (L : Listener) (target : Nat) : List Entry → Nat → SweepOut
  | [], ws => ⟨[], [], ws, decide (target < ws)⟩
  | e :: rest, ws =>
    if target < ws then
      let r := evictionSweep L target rest (ws - e.weight)
      ⟨r.remaining,
       ⟨e.key, e.value, RemovalCause.SizeConstraint,
        L e.key e.value RemovalCause.SizeConstraint⟩ :: r.notified,
       r.wsAfter, r.internalFault⟩
    else ⟨e :: rest, [], ws, false⟩

/-- Modelled from the spec (section 3): the cache state relevant to the
capacity-control subsystem: the store's entries in eviction order
(most-evictable first), the tracked weighted size, the published capacity,
the pending task queue of async capacity requests (FIFO), whether the
cache's maintenance machinery is still alive, and whether the channel used
by the async path can still accept requests. -/
structure Cache where
  entries : List Entry
  weightedSize : Nat
  maxCapacity : Nat
  queue : List Nat
  alive : Bool
  queueOpen : Bool
deriving DecidableEq

/-- The tracked weighted size agrees with the entries actually resident;
the spec calls the tracked value authoritative immediately after a
maintenance pass. -/
def Consistent (c : Cache) : Prop :=
  c.weightedSize = weightOf c.entries

instance (c : Cache) : Decidable (Consistent c) := by
  unfold Consistent; infer_instance

/-- Number of resident entries. -/
def entry_count (c : Cache) : Nat :=
  c.entries.length

/-- Modelled from the spec: `policy().max_capacity()` returns the current
published capacity (all modelled caches are bounded). -/
def policy_max_capacity (c : Cache) : Option Nat :=
  some c.maxCapacity

/-- Modelled from the spec (6): insert a key/value with a weight; the new
entry joins the eviction order at the least-evictable end and the tracked
weighted size grows by its weight. -/
def insert (k v w : Nat) (c : Cache) : Cache :=
  { c with entries := c.entries ++ [⟨k, v, w⟩],
           weightedSize := c.weightedSize + w }

/-- Apply one capacity-change request inside a maintenance pass: publish
the capacity, then run the eviction sweep targeting it (spec 4.3 step 2). -/
def applyRequest (L : Listener) (c : Cache) (n : Nat) :
    Cache × List Invocation :=
  let r := evictionSweep L n c.entries c.weightedSize
  ({ c with entries := r.remaining, weightedSize := r.wsAfter,
            maxCapacity := n },
   r.notified)

/-- Apply a batch of drained requests in order, each with its own sweep,
collecting the per-request listener invocations (spec 4.2, 4.3 step 2). -/
def applyRequests (L : Listener) (c : Cache) :
    List Nat → Cache × List (List Invocation)
  | [] => (c, [])
  | n :: ns =>
    let p := applyRequest L c n
    let q := applyRequests L p.1 ns
    (q.1, p.2 :: q.2)

/-- Modelled from the spec (4.1): `set_max_capacity_block(n)`.  If the
cache's machinery is torn down, fail with CacheDropped; otherwise publish
n and run the eviction sweep synchronously before returning, yielding the
new state and the listener invocations of this call's own sweep. -/
def set_max_capacity_block (L : Listener) (n : Nat) (c : Cache) :
    Except CapacityError (Cache × List Invocation) :=
  if c.alive then Except.ok (applyRequest L c n)
  else Except.error CapacityError.CacheDropped

/-- Modelled from the spec (4.1): `set_max_capacity_async(n)`.  Validate
the cache is alive (CacheDropped otherwise); enqueue the request, failing
with ChannelError when the channel cannot accept it; return without
applying anything. -/
def set_max_capacity_async (n : Nat) (c : Cache) :
    Except CapacityError Cache :=
  if c.alive then
    if c.queueOpen then Except.ok { c with queue := c.queue ++ [n] }
    else Except.error CapacityError.ChannelError
  else Except.error CapacityError.CacheDropped

/-- Enqueue a whole list of async requests in order, stopping at the first
failure. -/
def enqueue_all (c : Cache) : List Nat → Except CapacityError Cache
  | [] => Except.ok c
  | n :: ns =>
    match set_max_capacity_async n c with
    | Except.ok c1 => enqueue_all c1 ns
    | Except.error e => Except.error e

/-- Modelled from the spec (4.3, 4.1 zero-capacity edge case):
`run_pending_tasks()`.  One maintenance pass: snapshot-drain the queue,
apply each drained request in order with its own sweep, then run the
eviction sweep once more at the (now current) published capacity —
unconditionally, so the current target is applied even to freshly inserted
entries.  Returns the new state, the per-request invocation lists, and the
final unconditional sweep's invocations. -/
def run_pending_tasks (L : Listener) (c : Cache) :
    Cache × List (List Invocation) × List Invocation :=
  let p := applyRequests L { c with queue := [] } c.queue
  let r := evictionSweep L p.1.maxCapacity p.1.entries p.1.weightedSize
  ({ p.1 with entries := r.remaining, weightedSize := r.wsAfter },
   p.2, r.notified)

/-- Issue a list of capacity values as sequential blocking calls, stopping
at the first failure and collecting each call's listener invocations. -/
def blocking_sequence (L : Listener) (c : Cache) :
    List Nat → Except CapacityError (Cache × List (List Invocation))
  | [] => Except.ok (c, [])
  | n :: ns =>
    match set_max_capacity_block L n c with
    | Except.error e => Except.error e
    | Except.ok (c1, inv) =>
      match blocking_sequence L c1 ns with
      | Except.error e => Except.error e
      | Except.ok (c2, rest) => Except.ok (c2, inv :: rest)

/-- A demonstration cache used to witness the claim theorems: two
weight-one entries, tracked weighted size 2, capacity 5, empty queue,
alive, channel open. -/
def demoCache : Cache :=
  ⟨[⟨1, 10, 1⟩, ⟨2, 20, 1⟩], 2, 5, [], true, true⟩

/-- A cache holding no entries, used as the counterexample input: capacity
2, empty queue, alive, channel open. -/
def emptyCache : Cache :=
  ⟨[], 0, 2, [], true, true⟩

theorem evictionSweep_nil (L : Listener) (t ws : Nat) :
    evictionSweep L t [] ws = ⟨[], [], ws, decide (t < ws)⟩ := rfl

theorem evictionSweep_cons_lt (L : Listener) (t ws : Nat) (e : Entry)
    (rest : List Entry) (h : t < ws) :
    evictionSweep L t (e :: rest) ws =
      ⟨(evictionSweep L t rest (ws - e.weight)).remaining,
       ⟨e.key, e.value, RemovalCause.SizeConstraint,
        L e.key e.value RemovalCause.SizeConstraint⟩ ::
         (evictionSweep L t rest (ws - e.weight)).notified,
       (evictionSweep L t rest (ws - e.weight)).wsAfter,
       (evictionSweep L t rest (ws - e.weight)).internalFault⟩ := by
  simp [evictionSweep, h]

theorem evictionSweep_cons_ge (L : Listener) (t ws : Nat) (e : Entry)
    (rest : List Entry) (h : ¬ t < ws) :
    evictionSweep L t (e :: rest) ws = ⟨e :: rest, [], ws, false⟩ := by
  simp [evictionSweep, h]

theorem sweep_noop (L : Listener) (t : Nat) (es : List Entry) (ws : Nat)
    (h : ws ≤ t) : evictionSweep L t es ws = ⟨es, [], ws, false⟩ := by
  cases es with
  | nil => simp [evictionSweep_nil]; omega
  | cons e rest => exact evictionSweep_cons_ge L t ws e rest (by omega)

theorem sweep_wsAfter_le (L : Listener) (t : Nat) (es : List Entry)
    (ws : Nat) (hc : ws = weightOf es) :
    (evictionSweep L t es ws).wsAfter ≤ t := by
  induction es generalizing ws with
  | nil =>
    simp [weightOf] at hc
    simp [evictionSweep_nil, hc]
  | cons e rest ih =>
    by_cases h : t < ws
    · rw [evictionSweep_cons_lt L t ws e rest h]
      have hc' : ws - e.weight = weightOf rest := by
        simp [weightOf, List.sum_cons] at hc ⊢
        omega
      exact ih (ws - e.weight) hc'
    · rw [evictionSweep_cons_ge L t ws e rest h]
      exact Nat.le_of_not_lt h

theorem sweep_consistent (L : Listener) (t : Nat) (es : List Entry)
    (ws : Nat) (hc : ws = weightOf es) :
    (evictionSweep L t es ws).wsAfter =
      weightOf (evictionSweep L t es ws).remaining := by
  induction es generalizing ws with
  | nil =>
    simp [weightOf] at hc
    simp [evictionSweep_nil, hc, weightOf]
  | cons e rest ih =>
    by_cases h : t < ws
    · rw [evictionSweep_cons_lt L t ws e rest h]
      have hc' : ws - e.weight = weightOf rest := by
        simp [weightOf, List.sum_cons] at hc ⊢
        omega
      exact ih (ws - e.weight) hc'
    · rw [evictionSweep_cons_ge L t ws e rest h]
      exact hc

theorem sweep_mem_remaining (L : Listener) (t : Nat) (es : List Entry)
    (ws : Nat) (e : Entry)
    (h : e ∈ (evictionSweep L t es ws).remaining) : e ∈ es := by
  induction es generalizing ws with
  | nil => simp [evictionSweep_nil] at h
  | cons a rest ih =>
    by_cases hlt : t < ws
    · rw [evictionSweep_cons_lt L t ws a rest hlt] at h
      exact List.mem_cons_of_mem a (ih (ws - a.weight) h)
    · rw [evictionSweep_cons_ge L t ws a rest hlt] at h
      exact h

theorem sweep_fault_iff (L : Listener) (t : Nat) (es : List Entry)
    (ws : Nat) :
    (evictionSweep L t es ws).internalFault = true ↔
      (evictionSweep L t es ws).remaining = [] ∧
        t < (evictionSweep L t es ws).wsAfter := by
  induction es generalizing ws with
  | nil => simp [evictionSweep_nil]
  | cons e rest ih =>
    by_cases h : t < ws
    · rw [evictionSweep_cons_lt L t ws e rest h]
      exact ih (ws - e.weight)
    · rw [evictionSweep_cons_ge L t ws e rest h]
      simp

theorem sweep_notified_le (L : Listener) (t : Nat) (es : List Entry)
    (ws : Nat) :
    (evictionSweep L t es ws).notified.length ≤ es.length := by
  induction es generalizing ws with
  | nil => simp [evictionSweep_nil]
  | cons e rest ih =>
    by_cases h : t < ws
    · rw [evictionSweep_cons_lt L t ws e rest h]
      simpa using ih (ws - e.weight)
    · rw [evictionSweep_cons_ge L t ws e rest h]
      simp

theorem sweep_cause (L : Listener) (t : Nat) (es : List Entry) (ws : Nat)
    (i : Invocation) (h : i ∈ (evictionSweep L t es ws).notified) :
    i.cause = RemovalCause.SizeConstraint := by
  induction es generalizing ws with
  | nil => simp [evictionSweep_nil] at h
  | cons e rest ih =>
    by_cases hlt : t < ws
    · rw [evictionSweep_cons_lt L t ws e rest hlt] at h
      rcases List.mem_cons.mp h with h1 | h2
      · rw [h1]
      · exact ih (ws - e.weight) h2
    · rw [evictionSweep_cons_ge L t ws e rest hlt] at h
      simp at h

theorem sweep_listener_indep (L L' : Listener) (t : Nat) (es : List Entry)
    (ws : Nat) :
    (evictionSweep L t es ws).remaining =
        (evictionSweep L' t es ws).remaining ∧
      (evictionSweep L t es ws).wsAfter =
        (evictionSweep L' t es ws).wsAfter ∧
      (evictionSweep L t es ws).internalFault =
        (evictionSweep L' t es ws).internalFault ∧
      (evictionSweep L t es ws).notified.map Invocation.observed =
        (evictionSweep L' t es ws).notified.map Invocation.observed := by
  induction es generalizing ws with
  | nil => simp [evictionSweep_nil]
  | cons e rest ih =>
    by_cases h : t < ws
    · rw [evictionSweep_cons_lt L t ws e rest h,
        evictionSweep_cons_lt L' t ws e rest h]
      rcases ih (ws - e.weight) with ⟨h1, h2, h3, h4⟩
      exact ⟨h1, h2, h3, by simp [Invocation.observed, h4]⟩
    · rw [evictionSweep_cons_ge L t ws e rest h,
        evictionSweep_cons_ge L' t ws e rest h]
      simp

theorem sweep_unit_weights (L : Listener) (t : Nat) (es : List Entry)
    (ws : Nat) (hw : ∀ e ∈ es, e.weight = 1) (hc : ws = es.length) :
    (evictionSweep L t es ws).remaining.length = min es.length t ∧
      (evictionSweep L t es ws).notified.length = es.length - t := by
  induction es generalizing ws with
  | nil => simp [evictionSweep_nil, hc]
  | cons e rest ih =>
    have hwe : e.weight = 1 := hw e (List.mem_cons_self e rest)
    have hw' : ∀ x ∈ rest, x.weight = 1 :=
      fun x hx => hw x (List.mem_cons_of_mem e hx)
    by_cases h : t < ws
    · rw [evictionSweep_cons_lt L t ws e rest h]
      have hc' : ws - e.weight = rest.length := by
        simp [hc, hwe]
      rcases ih (ws - e.weight) hw' hc' with ⟨h1, h2⟩
      constructor
      · rw [h1]
        simp [hc] at h
        simp
        omega
      · simp [h2]
        simp [hc] at h
        omega
    · rw [evictionSweep_cons_ge L t ws e rest h]
      simp [hc] at h
      constructor
      · simp
        omega
      · simp
        omega

theorem sweep_drain_zero (L : Listener) (es : List Entry) (ws : Nat)
    (hc : ws = weightOf es) (hw : ∀ e ∈ es, 1 ≤ e.weight) :
    (evictionSweep L 0 es ws).remaining = [] := by
  have h1 := sweep_wsAfter_le L 0 es ws hc
  have h2 := sweep_consistent L 0 es ws hc
  cases hr : (evictionSweep L 0 es ws).remaining with
  | nil => rfl
  | cons e rest =>
    exfalso
    have he : e ∈ es :=
      sweep_mem_remaining L 0 es ws e (hr ▸ List.mem_cons_self e rest)
    have hwe := hw e he
    rw [hr] at h2
    simp [weightOf, List.sum_cons] at h2
    omega

theorem weightOf_unit (es : List Entry) (hw : ∀ e ∈ es, e.weight = 1) :
    weightOf es = es.length := by
  induction es with
  | nil => simp [weightOf]
  | cons e rest ih =>
    have he : e.weight = 1 := hw e (List.mem_cons_self e rest)
    have ih' := ih (fun x hx => hw x (List.mem_cons_of_mem e hx))
    rw [weightOf, List.map_cons, List.sum_cons, he, List.length_cons]
    rw [weightOf] at ih'
    omega

theorem applyRequest_fields (L : Listener) (c : Cache) (n : Nat) :
    (applyRequest L c n).1.maxCapacity = n ∧
      (applyRequest L c n).1.alive = c.alive ∧
      (applyRequest L c n).1.queueOpen = c.queueOpen ∧
      (applyRequest L c n).1.queue = c.queue := by
  simp [applyRequest]

theorem applyRequest_consistent (L : Listener) (c : Cache) (n : Nat)
    (hc : Consistent c) :
    Consistent (applyRequest L c n).1 ∧
      (applyRequest L c n).1.weightedSize ≤ n := by
  unfold Consistent at hc
  constructor
  · unfold Consistent
    simp [applyRequest]
    exact sweep_consistent L n c.entries c.weightedSize hc
  · simp [applyRequest]
    exact sweep_wsAfter_le L n c.entries c.weightedSize hc

theorem applyRequests_consistent (L : Listener) (c : Cache) (ns : List Nat)
    (hc : Consistent c) :
    Consistent (applyRequests L c ns).1 ∧
      (applyRequests L c ns).1.alive = c.alive ∧
      (applyRequests L c ns).1.queueOpen = c.queueOpen ∧
      (applyRequests L c ns).1.queue = c.queue := by
  induction ns generalizing c with
  | nil => exact ⟨hc, rfl, rfl, rfl⟩
  | cons n ns ih =>
    have h1 := applyRequest_consistent L c n hc
    have h2 := applyRequest_fields L c n
    have h3 := ih (applyRequest L c n).1 h1.1
    refine ⟨?_, ?_, ?_, ?_⟩
    · exact h3.1
    · rw [applyRequests]
      simpa [h2.2.1] using h3.2.1
    · rw [applyRequests]
      simpa [h2.2.2.1] using h3.2.2.1
    · rw [applyRequests]
      simpa [h2.2.2.2] using h3.2.2.2

theorem applyRequests_le (L : Listener) (c : Cache) (ns : List Nat)
    (hc : Consistent c) (hle : c.weightedSize ≤ c.maxCapacity) :
    (applyRequests L c ns).1.weightedSize ≤
      (applyRequests L c ns).1.maxCapacity := by
  induction ns generalizing c with
  | nil => exact hle
  | cons n ns ih =>
    have h1 := applyRequest_consistent L c n hc
    have h2 := applyRequest_fields L c n
    rw [applyRequests]
    exact ih (applyRequest L c n).1 h1.1 (by rw [h2.1]; exact h1.2)

theorem block_eq_applyRequest (L : Listener) (n : Nat) (c : Cache)
    (h : c.alive = true) :
    set_max_capacity_block L n c = Except.ok (applyRequest L c n) := by
  simp [set_max_capacity_block, h]

theorem blocking_sequence_eq (L : Listener) (c : Cache) (ns : List Nat)
    (h : c.alive = true) :
    blocking_sequence L c ns = Except.ok (applyRequests L c ns) := by
  induction ns generalizing c with
  | nil => simp [blocking_sequence, applyRequests]
  | cons n ns ih =>
    have ha : (applyRequest L c n).1.alive = true := by
      rw [(applyRequest_fields L c n).2.1]
      exact h
    rcases hp : applyRequest L c n with ⟨c1, inv⟩
    rw [hp] at ha
    have hb := block_eq_applyRequest L n c h
    rw [hp] at hb
    have hrec := ih c1 ha
    rcases hq : applyRequests L c1 ns with ⟨c2, rest⟩
    rw [hq] at hrec
    simp [blocking_sequence, applyRequests, hb, hrec, hp, hq]

theorem async_ok (n : Nat) (c : Cache) (h1 : c.alive = true)
    (h2 : c.queueOpen = true) :
    set_max_capacity_async n c =
      Except.ok { c with queue := c.queue ++ [n] } := by
  simp [set_max_capacity_async, h1, h2]

theorem enqueue_all_ok (c : Cache) (ns : List Nat) (h1 : c.alive = true)
    (h2 : c.queueOpen = true) :
    enqueue_all c ns = Except.ok { c with queue := c.queue ++ ns } := by
  induction ns generalizing c with
  | nil => simp [enqueue_all]
  | cons n ns ih =>
    have hstep := ih { c with queue := c.queue ++ [n] } h1 h2
    simp [enqueue_all, async_ok n c h1 h2, hstep]

theorem block_ok_inv (L : Listener) (n : Nat) (c c' : Cache)
    (inv : List Invocation)
    (hb : set_max_capacity_block L n c = Except.ok (c', inv)) :
    c.alive = true ∧ (c', inv) = applyRequest L c n := by
  by_cases h : c.alive = true
  · rw [block_eq_applyRequest L n c h] at hb
    refine ⟨h, ?_⟩
    injection hb with h2
    exact h2.symm
  · have hf : c.alive = false := by simpa using h
    simp [set_max_capacity_block, hf] at hb

theorem cache_set_same_capacity (c : Cache) (n : Nat)
    (h : c.maxCapacity = n) : { c with maxCapacity := n } = c := by
  cases c
  cases h
  rfl

theorem applyRequest_noop (L : Listener) (c : Cache) (n : Nat)
    (hle : c.weightedSize ≤ n) :
    applyRequest L c n = ({ c with maxCapacity := n }, []) := by
  have hnoop := sweep_noop L n c.entries c.weightedSize hle
  simp [applyRequest, hnoop]

/-- C1: after a maintenance pass finishes — in particular after a
successful `set_max_capacity_block(n)`, and after `run_pending_tasks` —
the cache's weighted size does not exceed the published max capacity, and
a published capacity of 0 forces weighted size 0. -/
theorem c1_weighted_size_le_capacity (L : Listener) (n : Nat) (c : Cache)
    (hc : Consistent c) (ha : c.alive = true) :
    (∃ c' inv, set_max_capacity_block L n c = Except.ok (c', inv) ∧
      c'.weightedSize ≤ c'.maxCapacity ∧ c'.maxCapacity = n ∧
      (c'.maxCapacity = 0 → c'.weightedSize = 0)) ∧
    ((run_pending_tasks L c).1.weightedSize ≤
        (run_pending_tasks L c).1.maxCapacity ∧
      ((run_pending_tasks L c).1.maxCapacity = 0 →
        (run_pending_tasks L c).1.weightedSize = 0)) := by
  unfold Consistent at hc
  constructor
  · refine ⟨(applyRequest L c n).1, (applyRequest L c n).2, ?_, ?_, ?_, ?_⟩
    · rw [block_eq_applyRequest L n c ha]
    · rw [(applyRequest_fields L c n).1]
      simpa [applyRequest] using sweep_wsAfter_le L n c.entries c.weightedSize hc
    · exact (applyRequest_fields L c n).1
    · intro h0
      rw [(applyRequest_fields L c n).1] at h0
      subst h0
      have := sweep_wsAfter_le L 0 c.entries c.weightedSize hc
      simpa [applyRequest] using Nat.le_zero.mp (by simpa [applyRequest] using this)
  · have hc0 : Consistent { c with queue := ([] : List Nat) } := by
      unfold Consistent
      simpa using hc
    have hp := (applyRequests_consistent L { c with queue := [] } c.queue hc0).1
    unfold Consistent at hp
    constructor
    · simpa [run_pending_tasks] using
        sweep_wsAfter_le L (applyRequests L { c with queue := [] } c.queue).1.maxCapacity
          (applyRequests L { c with queue := [] } c.queue).1.entries
          (applyRequests L { c with queue := [] } c.queue).1.weightedSize hp
    · intro h0
      simp [run_pending_tasks] at h0 ⊢
      rw [h0] at *
      exact Nat.le_zero.mp (sweep_wsAfter_le L 0
        (applyRequests L { c with queue := [] } c.queue).1.entries
        (applyRequests L { c with queue := [] } c.queue).1.weightedSize hp)

/-- Witness for C1 at a concrete cache and capacity. -/
theorem c1_weighted_size_le_capacity_witness :
    Consistent demoCache ∧ demoCache.alive = true ∧
      ((∃ c' inv,
          set_max_capacity_block noFaultL 1 demoCache = Except.ok (c', inv) ∧
          c'.weightedSize ≤ c'.maxCapacity ∧ c'.maxCapacity = 1 ∧
          (c'.maxCapacity = 0 → c'.weightedSize = 0)) ∧
        ((run_pending_tasks noFaultL demoCache).1.weightedSize ≤
            (run_pending_tasks noFaultL demoCache).1.maxCapacity ∧
          ((run_pending_tasks noFaultL demoCache).1.maxCapacity = 0 →
            (run_pending_tasks noFaultL demoCache).1.weightedSize = 0))) :=
  ⟨by decide, rfl,
    c1_weighted_size_le_capacity noFaultL 1 demoCache (by decide) rfl⟩

/-- C7: calling `set_max_capacity_block(n)` twice consecutively with no
intervening inserts evicts nothing on the second call — the second call
returns the same state with an empty invocation list — and the weighted
size is at most n after both calls. -/
theorem c7_idempotent (L L' : Listener) (n : Nat) (c : Cache)
    (hc : Consistent c) (ha : c.alive = true) :
    ∃ c1 inv1, set_max_capacity_block L n c = Except.ok (c1, inv1) ∧
      set_max_capacity_block L' n c1 = Except.ok (c1, []) ∧
      c1.weightedSize ≤ n := by
  refine ⟨(applyRequest L c n).1, (applyRequest L c n).2, ?_, ?_, ?_⟩
  · rw [block_eq_applyRequest L n c ha]
  · have ha1 : (applyRequest L c n).1.alive = true := by
      rw [(applyRequest_fields L c n).2.1]
      exact ha
    have hle := (applyRequest_consistent L c n hc).2
    have hcap := (applyRequest_fields L c n).1
    rw [block_eq_applyRequest L' n _ ha1,
      applyRequest_noop L' (applyRequest L c n).1 n hle,
      cache_set_same_capacity (applyRequest L c n).1 n hcap]
  · exact (applyRequest_consistent L c n hc).2

/-- Witness for C7 at a concrete cache and capacity. -/
theorem c7_idempotent_witness :
    Consistent demoCache ∧ demoCache.alive = true ∧
      (∃ c1 inv1,
        set_max_capacity_block allFaultL 1 demoCache = Except.ok (c1, inv1) ∧
        set_max_capacity_block noFaultL 1 c1 = Except.ok (c1, []) ∧
        c1.weightedSize ≤ 1) :=
  ⟨by decide, rfl, c7_idempotent allFaultL noFaultL 1 demoCache (by decide) rfl⟩

/-- C9: a successful `set_max_capacity_block(n)` publishes n: afterwards
`policy().max_capacity()` returns n. -/
theorem c9_block_publishes_capacity (L : Listener) (n : Nat) (c c' : Cache)
    (inv : List Invocation)
    (hb : set_max_capacity_block L n c = Except.ok (c', inv)) :
    policy_max_capacity c' = some n := by
  obtain ⟨ha, heq⟩ := block_ok_inv L n c c' inv hb
  have hc' : c' = (applyRequest L c n).1 := by rw [← heq]
  rw [hc', policy_max_capacity, (applyRequest_fields L c n).1]

/-- Witness for C9: the blocking call on the demonstration cache evicts
one entry and publishes the new capacity 1. -/
theorem c9_block_publishes_capacity_witness :
    set_max_capacity_block noFaultL 1 demoCache =
        Except.ok (⟨[⟨2, 20, 1⟩], 1, 1, [], true, true⟩,
          [⟨1, 10, RemovalCause.SizeConstraint, false⟩]) ∧
      policy_max_capacity (⟨[⟨2, 20, 1⟩], 1, 1, [], true, true⟩ : Cache) =
        some 1 :=
  ⟨rfl, c9_block_publishes_capacity noFaultL 1 demoCache _ _ rfl⟩

/-- C10: raising the capacity to (at least) the current weighted size
evicts nothing: the blocking call returns with an empty invocation list
and the resident entry set, entry count and weighted size unchanged. -/
theorem c10_raise_capacity_frame (L : Listener) (n : Nat) (c : Cache)
    (ha : c.alive = true) (hle : c.weightedSize ≤ n) :
    set_max_capacity_block L n c =
        Except.ok ({ c with maxCapacity := n }, []) ∧
      ({ c with maxCapacity := n } : Cache).entries = c.entries ∧
      entry_count { c with maxCapacity := n } = entry_count c ∧
      ({ c with maxCapacity := n } : Cache).weightedSize = c.weightedSize := by
  have hnoop := sweep_noop L n c.entries c.weightedSize hle
  refine ⟨?_, rfl, rfl, rfl⟩
  rw [block_eq_applyRequest L n c ha]
  simp [applyRequest, hnoop]

/-- Witness for C10: raising the demonstration cache's capacity to 10
leaves it unchanged apart from the published capacity. -/
theorem c10_raise_capacity_frame_witness :
    demoCache.alive = true ∧ demoCache.weightedSize ≤ 10 ∧
      (set_max_capacity_block allFaultL 10 demoCache =
          Except.ok ({ demoCache with maxCapacity := 10 }, []) ∧
        ({ demoCache with maxCapacity := 10 } : Cache).entries =
          demoCache.entries ∧
        entry_count { demoCache with maxCapacity := 10 } =
          entry_count demoCache ∧
        ({ demoCache with maxCapacity := 10 } : Cache).weightedSize =
          demoCache.weightedSize) :=
  ⟨rfl, by decide, c10_raise_capacity_frame allFaultL 10 demoCache rfl (by decide)⟩

theorem cache_set_same_queue (c : Cache) (q : List Nat)
    (h : c.queue = q) : { c with queue := q } = c := by
  cases c
  cases h
  rfl

theorem run_pending_tasks_steady (L : Listener) (c : Cache) (ns : List Nat)
    (hq : c.queue = []) (hc : Consistent c)
    (hle : c.weightedSize ≤ c.maxCapacity) :
    run_pending_tasks L { c with queue := ns } =
      ((applyRequests L c ns).1, (applyRequests L c ns).2, []) := by
  have h0 : ({ c with queue := ([] : List Nat) } : Cache) = c :=
    cache_set_same_queue c [] hq
  have hle' := applyRequests_le L c ns hc hle
  have hnoop := sweep_noop L (applyRequests L c ns).1.maxCapacity
    (applyRequests L c ns).1.entries (applyRequests L c ns).1.weightedSize hle'
  simp only [run_pending_tasks]
  rw [h0, hnoop]

/-- C2: after a successful `set_max_capacity_block(0)` the cache is empty,
and an entry inserted while the capacity is still 0 is purged again by the
next `run_pending_tasks` — the sweep target 0 is applied unconditionally,
including to freshly inserted entries. -/
theorem c2_zero_capacity_drain (L L' : Listener) (c : Cache) (k v w : Nat)
    (hc : Consistent c) (hw : ∀ e ∈ c.entries, 1 ≤ e.weight)
    (ha : c.alive = true) (hq : c.queue = []) (hwpos : 1 ≤ w) :
    ∃ c1 inv1, set_max_capacity_block L 0 c = Except.ok (c1, inv1) ∧
      entry_count c1 = 0 ∧ c1.maxCapacity = 0 ∧
      entry_count (run_pending_tasks L' (insert k v w c1)).1 = 0 := by
  unfold Consistent at hc
  have hrem := sweep_drain_zero L c.entries c.weightedSize hc hw
  have hws0 : (evictionSweep L 0 c.entries c.weightedSize).wsAfter = 0 := by
    rw [sweep_consistent L 0 c.entries c.weightedSize hc, hrem]
    simp [weightOf]
  have hc1 : (applyRequest L c 0).1 =
      { c with entries := [], weightedSize := 0, maxCapacity := 0 } := by
    simp [applyRequest, hrem, hws0]
  refine ⟨(applyRequest L c 0).1, (applyRequest L c 0).2, ?_, ?_, ?_, ?_⟩
  · rw [block_eq_applyRequest L 0 c ha]
  · simp [entry_count, hc1]
  · exact (applyRequest_fields L c 0).1
  · rw [hc1]
    have hins : insert k v w
        { c with entries := [], weightedSize := 0, maxCapacity := 0 } =
        { c with entries := [⟨k, v, w⟩], weightedSize := w,
                 maxCapacity := 0 } := by
      simp [insert]
    rw [hins]
    have hdr := sweep_drain_zero L' [⟨k, v, w⟩] w (by simp [weightOf])
      (by simpa using hwpos)
    simp [run_pending_tasks, entry_count, hq, applyRequests, hdr]

/-- Witness for C2 at a concrete cache: drain to zero, insert one more
weight-one entry, drain again. -/
theorem c2_zero_capacity_drain_witness :
    Consistent demoCache ∧ (∀ e ∈ demoCache.entries, 1 ≤ e.weight) ∧
      demoCache.alive = true ∧ demoCache.queue = [] ∧ (1 : Nat) ≤ 1 ∧
      (∃ c1 inv1,
        set_max_capacity_block noFaultL 0 demoCache = Except.ok (c1, inv1) ∧
        entry_count c1 = 0 ∧ c1.maxCapacity = 0 ∧
        entry_count (run_pending_tasks allFaultL (insert 7 70 1 c1)).1 = 0) :=
  ⟨by decide, by decide, rfl, rfl, by decide,
    c2_zero_capacity_drain noFaultL allFaultL demoCache 7 70 1 (by decide)
      (by decide) rfl rfl (by decide)⟩

/-- C3: async capacity requests submitted in order and then drained by one
maintenance pass are each applied and swept in submission order, never
coalesced: the drain yields the same final state and the same sequence of
per-request listener-invocation lists as issuing the values as sequential
blocking calls, and the pass's trailing sweep evicts nothing further. -/
theorem c3_async_order_preserved (L : Listener) (c : Cache) (ns : List Nat)
    (hc : Consistent c) (hle : c.weightedSize ≤ c.maxCapacity)
    (ha : c.alive = true) (ho : c.queueOpen = true) (hq : c.queue = []) :
    ∃ cq, enqueue_all c ns = Except.ok cq ∧
      ∃ cf per, blocking_sequence L c ns = Except.ok (cf, per) ∧
        run_pending_tasks L cq = (cf, per, []) := by
  refine ⟨{ c with queue := ns }, ?_, (applyRequests L c ns).1,
    (applyRequests L c ns).2, ?_, ?_⟩
  · rw [enqueue_all_ok c ns ha ho, hq]
    simp
  · rw [blocking_sequence_eq L c ns ha]
  · exact run_pending_tasks_steady L c ns hq hc hle

/-- Witness for C3: three async requests on the demonstration cache. -/
theorem c3_async_order_preserved_witness :
    Consistent demoCache ∧
      demoCache.weightedSize ≤ demoCache.maxCapacity ∧
      demoCache.alive = true ∧ demoCache.queueOpen = true ∧
      demoCache.queue = [] ∧
      (∃ cq, enqueue_all demoCache [3, 1, 2] = Except.ok cq ∧
        ∃ cf per,
          blocking_sequence noFaultL demoCache [3, 1, 2] =
            Except.ok (cf, per) ∧
          run_pending_tasks noFaultL cq = (cf, per, [])) :=
  ⟨by decide, by decide, rfl, rfl, rfl,
    c3_async_order_preserved noFaultL demoCache [3, 1, 2] (by decide)
      (by decide) rfl rfl rfl⟩

/-- C4, amended: the claim as stated fails when the cache holds fewer than
C2 entries; with the extra hypothesis C2 ≤ N it holds: lowering the
capacity from C1 to C2 over N resident weight-one entries invokes the
listener exactly N - C2 times, every time with cause SizeConstraint, and
leaves exactly C2 entries. -/
theorem c4_listener_completeness (L : Listener) (c : Cache)
    (N capOld capNew : Nat)
    (hw : ∀ e ∈ c.entries, e.weight = 1) (hc : Consistent c)
    (hN : c.entries.length = N) (hcap : c.maxCapacity = capOld)
    (ha : c.alive = true) (hlt : capNew < capOld) (hle : capNew ≤ N) :
    ∃ c' inv, set_max_capacity_block L capNew c = Except.ok (c', inv) ∧
      inv.length = N - capNew ∧
      (∀ i ∈ inv, i.cause = RemovalCause.SizeConstraint) ∧
      entry_count c' = capNew := by
  unfold Consistent at hc
  have hcl : c.weightedSize = c.entries.length := by
    rw [hc, weightOf_unit c.entries hw]
  rcases sweep_unit_weights L capNew c.entries c.weightedSize hw hcl with
    ⟨h1, h2⟩
  refine ⟨(applyRequest L c capNew).1, (applyRequest L c capNew).2,
    ?_, ?_, ?_, ?_⟩
  · rw [block_eq_applyRequest L capNew c ha]
  · simpa [applyRequest, hN] using h2
  · intro i hi
    apply sweep_cause L capNew c.entries c.weightedSize i
    simpa [applyRequest] using hi
  · rw [hN] at h1
    simp [entry_count, applyRequest, h1]
    omega

/-- Witness for the amended C4: the demonstration cache holds N = 2
weight-one entries under capacity 5; lowering to 1 notifies once and
leaves one entry. -/
theorem c4_listener_completeness_witness :
    (∀ e ∈ demoCache.entries, e.weight = 1) ∧ Consistent demoCache ∧
      demoCache.entries.length = 2 ∧ demoCache.maxCapacity = 5 ∧
      demoCache.alive = true ∧ (1 : Nat) < 5 ∧ (1 : Nat) ≤ 2 ∧
      (∃ c' inv,
        set_max_capacity_block noFaultL 1 demoCache = Except.ok (c', inv) ∧
        inv.length = 2 - 1 ∧
        (∀ i ∈ inv, i.cause = RemovalCause.SizeConstraint) ∧
        entry_count c' = 1) :=
  ⟨by decide, by decide, rfl, rfl, rfl, by decide, by decide,
    c4_listener_completeness noFaultL demoCache 2 5 1 (by decide) (by decide)
      rfl rfl rfl (by decide) (by decide)⟩

/-- Counterexample to C4 as stated: the empty cache holds N = 0 resident
weight-one entries under capacity C1 = 2; the blocking call with
C2 = 1 < C1 succeeds, invokes the listener zero times, and leaves
entry_count 0, not C2 = 1 as the claim requires. -/
theorem c4_counterexample :
    Consistent emptyCache ∧ (∀ e ∈ emptyCache.entries, e.weight = 1) ∧
      emptyCache.entries.length = 0 ∧ emptyCache.maxCapacity = 2 ∧
      emptyCache.alive = true ∧ (1 : Nat) < 2 ∧
      set_max_capacity_block noFaultL 1 emptyCache =
        Except.ok ({ emptyCache with maxCapacity := 1 }, []) ∧
      entry_count { emptyCache with maxCapacity := 1 } ≠ 1 :=
  ⟨by decide, by decide, rfl, rfl, rfl, by decide, rfl, by decide⟩

/-- C5: the capacity-change error type has exactly the two variants
CacheDropped and ChannelError; the blocking and async operations fail
explicitly with CacheDropped once the machinery is torn down, the async
operation fails explicitly with ChannelError when the request cannot be
enqueued, and otherwise both succeed — no failure is silent. -/
theorem c5_capacity_error_taxonomy :
    (∀ e : CapacityError,
        e = CapacityError.CacheDropped ∨ e = CapacityError.ChannelError) ∧
      CapacityError.CacheDropped ≠ CapacityError.ChannelError ∧
      (∀ (L : Listener) (n : Nat) (c : Cache), c.alive = false →
        set_max_capacity_block L n c =
          Except.error CapacityError.CacheDropped) ∧
      (∀ (n : Nat) (c : Cache), c.alive = false →
        set_max_capacity_async n c =
          Except.error CapacityError.CacheDropped) ∧
      (∀ (n : Nat) (c : Cache), c.alive = true → c.queueOpen = false →
        set_max_capacity_async n c =
          Except.error CapacityError.ChannelError) ∧
      (∀ (L : Listener) (n : Nat) (c : Cache), c.alive = true →
        ∃ p, set_max_capacity_block L n c = Except.ok p) ∧
      (∀ (n : Nat) (c : Cache), c.alive = true → c.queueOpen = true →
        ∃ d, set_max_capacity_async n c = Except.ok d) := by
  refine ⟨?_, by decide, ?_, ?_, ?_, ?_, ?_⟩
  · intro e
    cases e
    · exact Or.inl rfl
    · exact Or.inr rfl
  · intro L n c h
    simp [set_max_capacity_block, h]
  · intro n c h
    simp [set_max_capacity_async, h]
  · intro n c h1 h2
    simp [set_max_capacity_async, h1, h2]
  · intro L n c h
    exact ⟨applyRequest L c n, block_eq_applyRequest L n c h⟩
  · intro n c h1 h2
    exact ⟨{ c with queue := c.queue ++ [n] }, async_ok n c h1 h2⟩

/-- C6: a fault inside the eviction-listener callback is isolated per
entry: for any two listeners (one may fault everywhere, the other never)
the sweep removes the same victims, reaches the same tracked size, and
makes the same (key, value, cause) invocations; and the blocking
capacity-change call succeeds with the same resulting cache state
regardless of listener faults — a fault never surfaces to the caller. -/
theorem c6_listener_fault_isolated (L L' : Listener) (t ws n : Nat)
    (es : List Entry) (c : Cache) (ha : c.alive = true) :
    ((evictionSweep L t es ws).remaining =
        (evictionSweep L' t es ws).remaining ∧
      (evictionSweep L t es ws).wsAfter =
        (evictionSweep L' t es ws).wsAfter ∧
      (evictionSweep L t es ws).notified.map Invocation.observed =
        (evictionSweep L' t es ws).notified.map Invocation.observed) ∧
    ∃ p q, set_max_capacity_block L n c = Except.ok p ∧
      set_max_capacity_block L' n c = Except.ok q ∧ p.1 = q.1 := by
  rcases sweep_listener_indep L L' t es ws with ⟨h1, h2, _, h4⟩
  refine ⟨⟨h1, h2, h4⟩, applyRequest L c n, applyRequest L' c n,
    ?_, ?_, ?_⟩
  · rw [block_eq_applyRequest L n c ha]
  · rw [block_eq_applyRequest L' n c ha]
  · rcases sweep_listener_indep L L' n c.entries c.weightedSize with
      ⟨g1, g2, _, _⟩
    simp [applyRequest, g1, g2]

/-- Witness for C6: the always-faulting listener against the never-faulting
one, on the demonstration cache. -/
theorem c6_listener_fault_isolated_witness :
    demoCache.alive = true ∧
      (((evictionSweep allFaultL 1 demoCache.entries 2).remaining =
          (evictionSweep noFaultL 1 demoCache.entries 2).remaining ∧
        (evictionSweep allFaultL 1 demoCache.entries 2).wsAfter =
          (evictionSweep noFaultL 1 demoCache.entries 2).wsAfter ∧
        (evictionSweep allFaultL 1 demoCache.entries 2).notified.map
            Invocation.observed =
          (evictionSweep noFaultL 1 demoCache.entries 2).notified.map
            Invocation.observed) ∧
      ∃ p q, set_max_capacity_block allFaultL 1 demoCache = Except.ok p ∧
        set_max_capacity_block noFaultL 1 demoCache = Except.ok q ∧
        p.1 = q.1) :=
  ⟨rfl, c6_listener_fault_isolated allFaultL noFaultL 1 2 1
    demoCache.entries demoCache rfl⟩

/-- C8: the eviction sweep terminates; the termination guard surfaces an
internal fault exactly when the eviction-order iterator was exhausted
while the tracked weighted size still exceeded the target, and the number
of victim polls is bounded by the store size. -/
theorem c8_termination_guard (L : Listener) (t : Nat) (es : List Entry)
    (ws : Nat) :
    ((evictionSweep L t es ws).internalFault = true ↔
      (evictionSweep L t es ws).remaining = [] ∧
        t < (evictionSweep L t es ws).wsAfter) ∧
    (evictionSweep L t es ws).notified.length ≤ es.length :=
  ⟨sweep_fault_iff L t es ws, sweep_notified_le L t es ws⟩

end Moka
